import Mathlib

/-!
Shallow embedding of the S3-backed cache layer
(storage-bigtable src cache: s3.rs and cache.rs).

Row keys and storage keys are modelled as `List Char` (Rust `String`
iterated by `chars()`); blobs are `List Nat` (byte sequences); error
messages are Lean `String`.
-/

set_option maxRecDepth 4096

/-- Rust `char::is_ascii_alphabetic`. -/
def isAsciiAlphabetic (c : Char) : Bool :=
  ('a' ≤ c && c ≤ 'z') || ('A' ≤ c && c ≤ 'Z')

/-- Rust `char::is_ascii_lowercase`. -/
def isAsciiLowercase (c : Char) : Bool :=
  'a' ≤ c && c ≤ 'z'

/-- The body of the `for i in (0..result.len()).rev()` loop of
`previous_alphanumeric` (s3.rs lines 266..279), expressed on the reversed
character list: non-alphabetic characters pass through unchanged, an
alphabetic character strictly greater than 'a' is decremented and the scan
stops (the remaining characters are kept as they are), and an alphabetic
character not greater than 'a' is rewritten to 'z' (lowercase) or '9'
(otherwise) while the scan continues. -/
def prevScan : List Char → List Char
  | [] => []
  | c :: rest =>
    if isAsciiAlphabetic c then
      if 'a' < c then
        Char.ofNat (c.toNat - 1) :: rest
      else
        (if isAsciiLowercase c then 'z' else '9') :: prevScan rest
    else
      c :: prevScan rest

/-- Embedding of `previous_alphanumeric` (s3.rs lines 259..281): the
all-zeros sentinel check followed by the right-to-left borrow scan. -/
def previous_alphanumeric (input : List Char) : List Char :=
  if input.all (fun c => c == '0') then
    []
  else
    (prevScan input.reverse).reverse

/-- Spec section 4.1: the scan stops exactly at an alphabetic character
strictly greater than 'a'. -/
def stopChar (c : Char) : Bool :=
  isAsciiAlphabetic c && 'a' < c

/-- Spec section 4.1: the rewrite applied to a character that does not stop
the scan: 'a'-like lowercase letters become 'z', uppercase letters become
'9', non-alphabetic characters are unchanged. -/
def borrowChar (c : Char) : Char :=
  if isAsciiAlphabetic c then
    (if isAsciiLowercase c then 'z' else '9')
  else
    c

/-- The predecessor function written from the words of spec section 4.1:
if every character is the digit '0' return the empty string; otherwise
split the reversed string at the first stopping character (the last such
character of the original string); rewrite everything before it with the
borrow rule; decrement the stopping character if one exists and keep the
rest; if no character stops the scan, the whole string is rewritten by the
borrow rule. -/
def previousAlphanumericSpec (input : List Char) : List Char :=
  if input.all (fun c => c == '0') then
    []
  else
    let r := input.reverse
    match r.dropWhile (fun c => !(stopChar c)) with
    | [] => (r.map borrowChar).reverse
    | c :: post =>
        ((r.takeWhile (fun c => !(stopChar c))).map borrowChar
          ++ Char.ofNat (c.toNat - 1) :: post).reverse

/-- Number of positions at which two equal-length strings differ. -/
def countDiffs (a b : List Char) : Nat :=
  (a.zip b).countP (fun p => p.1 != p.2)

/-- Fueled core of Rust `str::trim_start_matches`: while the (non-empty)
pattern is a prefix of the string, strip one occurrence and repeat. The
fuel is the length of the string, which bounds the number of strips since
each one removes at least one character. -/
def trimAux : Nat → List Char → List Char → List Char
  | 0, _, s => s
  | fuel + 1, pat, s =>
    if pat.isEmpty || !(pat.isPrefixOf s) then
      s
    else
      trimAux fuel pat (s.drop pat.length)

/-- Rust `str::trim_start_matches pat`: repeatedly removes `pat` from the
front of the string (a no-op when `pat` is empty). -/
def trimStartMatches (pat s : List Char) : List Char :=
  trimAux s.length pat s

/-- Key codec, encode direction: the storage key built by
`format ( "...", self.prefix, table_name, row_key )` in `put_row_data`,
`row_key_exists` and `get_single_row_data`:
`nsPfx / tableName / rowKey`. -/
def encodeKey (nsPfx tableName rowKey : List Char) : List Char :=
  nsPfx ++ '/' :: tableName ++ '/' :: rowKey

/-- Key codec, decode direction (s3.rs line 243): given the listing
prefix `listPfx = nsPfx / tableName`, the stored key string is first
trimmed of all leading occurrences of `listPfx`, then of all leading '/'
characters. -/
def decodeKey (listPfx k : List Char) : List Char :=
  trimStartMatches ['/'] (trimStartMatches listPfx k)

/-- Byte-lexicographic strict order on keys, the order in which the S3
backend lists object keys. -/
def keyLt : List Char → List Char → Bool
  | [], [] => false
  | [], _ :: _ => true
  | _ :: _, [] => false
  | a :: as, b :: bs =>
    if a < b then true
    else if b < a then false
    else keyLt as bs

/-- Error type of the cache layer (cache.rs lines 5..15). -/
inductive CacheError : Type where
  | InitializationFailed (msg : String)
  | CacheReadFailed (msg : String)
  | CacheWriteFailed (msg : String)
deriving DecidableEq, Repr

/-- The Display rendering of `CacheError` given by the error attributes in
cache.rs. -/
def CacheError.display : CacheError → String
  | .InitializationFailed m => "Failed to initialize cache: " ++ m
  | .CacheReadFailed m => "Failed reading from cache: " ++ m
  | .CacheWriteFailed m => "Failed writing to cache: " ++ m

/-- Modelled from the spec (section 3): `RowData` is an ordered sequence
of (column name, value bytes) pairs; the concrete Rust type lives in the
bigtable module, which is not part of the sources. -/
abbrev RowData : Type := List (String × List Nat)

instance {ε α : Type} [DecidableEq ε] [DecidableEq α] : DecidableEq (Except ε α) :=
  fun x y =>
    match x, y with
    | Except.ok a, Except.ok b =>
        if h : a = b then Decidable.isTrue (by rw [h])
        else Decidable.isFalse (by intro hc; cases hc; exact h rfl)
    | Except.ok _, Except.error _ => Decidable.isFalse (by intro hc; cases hc)
    | Except.error _, Except.ok _ => Decidable.isFalse (by intro hc; cases hc)
    | Except.error e, Except.error f =>
        if h : e = f then Decidable.isTrue (by rw [h])
        else Decidable.isFalse (by intro hc; cases hc; exact h rfl)

/-- One stored object of the S3 bucket: its flat key and its blob. -/
structure S3Object : Type where
  key : List Char
  blob : List Nat
deriving DecidableEq, Repr

/-- Model of the S3 backend visible to the cache: the bucket contents (in
ascending key order for a well-formed backend), a flag making list calls
fail (transport error), and the outcome of a put against a given storage
key (`none` is success, `some msg` a transport error). Point gets succeed
exactly on stored keys; a missing key and a transport error reach the
code through the same error path. -/
structure S3Model : Type where
  objects : List S3Object
  listFails : Bool
  putErr : List Char → Option String

/-- Lookup of a stored blob by exact storage key. -/
def lookupBlob (key : List Char) : List S3Object → Option (List Nat)
  | [] => none
  | o :: rest => if o.key = key then some o.blob else lookupBlob key rest

/-- Model of `list_objects_v2 ... .prefix(p).start_after(sa).max_keys(n)`,
per the backend contract of spec section 6: the stored keys that have the
given prefix and are strictly greater than `startAfter`, in stored
(ascending) order, at most `maxKeys` of them. -/
def listObjectsV2 (m : S3Model) (listPfx startAfter : List Char) (maxKeys : Nat) :
    List (List Char) :=
  ((m.objects.map S3Object.key).filter
    (fun k => listPfx.isPrefixOf k && keyLt startAfter k)).take maxKeys

/-- The `for obj in storage_keys.contents()` loop of `get_keys` (s3.rs
lines 232..245): stop when the raw stored key string equals `endKey`
(which is `end_at` or the empty string when absent); stop when the number
of accepted keys has reached the limit; otherwise decode the stored key
by trimming the listing prefix and any following '/' and append it. -/
def collectLoop (listPfx endKey : List Char) (limit : Nat)
    (acc : List (List Char)) : List (List Char) → List (List Char)
  | [] => acc
  | k :: rest =>
    if k = endKey then acc
    else if limit ≤ acc.length then acc
    else collectLoop listPfx endKey limit (acc ++ [decodeKey listPfx k]) rest

/-- Embedding of `S3Cache::get_keys` (s3.rs lines 207..251). The limit is
modelled as a natural number: the source carries it as an i64 and all
claims exercise small positive limits only. A failing backend listing is
wrapped into `CacheReadFailed`. -/
def get_keys (m : S3Model) (nsPfx tableName : List Char)
    (startAt endAt : Option (List Char)) (keysLimit : Nat) :
    Except CacheError (List (List Char)) :=
  let startKey := startAt.getD []
  let endKey := endAt.getD []
  let listPfx := nsPfx ++ '/' :: tableName
  let beforeStartKey := previous_alphanumeric startKey
  let fullStartKey := listPfx ++ '/' :: beforeStartKey
  if m.listFails then
    Except.error (CacheError.CacheReadFailed "Could not read")
  else
    let storageKeys := listObjectsV2 m listPfx fullStartKey keysLimit
    Except.ok (collectLoop listPfx endKey keysLimit [] storageKeys)

/-- Embedding of `S3Cache::row_key_exists` (s3.rs lines 89..97): builds
the full storage key `nsPfx / tableName / rowKey`, passes it as the
`start_at` of a one-key listing, and reports whether the first listed
(decoded) key equals the row key. -/
def row_key_exists (m : S3Model) (nsPfx tableName rowKey : List Char) :
    Except CacheError Bool :=
  let key := encodeKey nsPfx tableName rowKey
  match get_keys m nsPfx tableName (some key) none 1 with
  | Except.error e => Except.error e
  | Except.ok storageKey =>
      Except.ok (match storageKey with
        | [] => false
        | k0 :: _ => decide (k0 = rowKey))

/-- Embedding of `S3Cache::get_single_row_data` (s3.rs lines 99..135): a
point get against the full storage key; on failure a `CacheReadFailed`
naming the key; on success one synthetic "proto" column wrapping the
whole blob. -/
def get_single_row_data (m : S3Model) (nsPfx tableName rowKey : List Char) :
    Except CacheError RowData :=
  let key := encodeKey nsPfx tableName rowKey
  match lookupBlob key m.objects with
  | none => Except.error (CacheError.CacheReadFailed ("Object not found " ++ String.mk key))
  | some bytes => Except.ok [("proto", bytes)]

/-- The `for row_key in row_keys` loop of `get_multi_row_data` (s3.rs
lines 172..182): sequential point lookups accumulating results in input
order; the first failing lookup aborts the whole batch with a
`CacheReadFailed` wrapping the displayed inner error. -/
def getMultiLoop (m : S3Model) (nsPfx tableName : List Char) :
    List (List Char) → List (List Char × RowData) →
    Except CacheError (List (List Char × RowData))
  | [], results => Except.ok results
  | rowKey :: rest, results =>
    match get_single_row_data m nsPfx tableName rowKey with
    | Except.ok rd => getMultiLoop m nsPfx tableName rest (results ++ [(rowKey, rd)])
    | Except.error err =>
        Except.error (CacheError.CacheReadFailed
          ("get_multi_row_data failed with " ++ CacheError.display err))

/-- Embedding of `S3Cache::get_multi_row_data` (s3.rs lines 169..185). -/
def get_multi_row_data (m : S3Model) (nsPfx tableName : List Char)
    (rowKeys : List (List Char)) :
    Except CacheError (List (List Char × RowData)) :=
  getMultiLoop m nsPfx tableName rowKeys []

/-- Record of one put request as it reaches the backend: the storage key,
the body blob (the concatenation of the column values), and the family
metadata tag. -/
structure PutCall : Type where
  key : List Char
  body : List Nat
  family : String
deriving DecidableEq, Repr

/-- Embedding of `S3Cache::put_row_data` (s3.rs lines 137..167). The
source loops over the entries but returns `Ok` unconditionally at the end
of the first iteration, so only the head of the list is ever examined;
the empty list falls through to the final `CacheWriteFailed`. The result
of the backend send is bound to a discarded value (`let _ = ... map_err`)
exactly as in the source, so a put transport error does not affect the
returned value. The second component records the put calls issued. -/
def put_row_data (m : S3Model) (nsPfx tableName : List Char)
    (familyName : String) (rowData : List (List Char × RowData)) :
    Except CacheError Unit × List PutCall :=
  match rowData with
  | [] => (Except.error (CacheError.CacheWriteFailed "Could not write row to cache"), [])
  | (key, data) :: _ =>
    let fullKey := encodeKey nsPfx tableName key
    let input := (data.map Prod.snd).flatten
    let call : PutCall := { key := fullKey, body := input, family := familyName }
    let _sendResult : Except CacheError Unit :=
      match m.putErr fullKey with
      | some err =>
          Except.error (CacheError.CacheWriteFailed
            ("Error while writing to cache " ++ String.mk fullKey ++ ": " ++ err))
      | none => Except.ok ()
    (Except.ok (), [call])

/-- Configuration handed to `S3Cache::new`. -/
structure S3Config : Type where
  access_key : String
  secret_key : String
  endpoint : String
  bucket : String
  region : String
  nsPfx : String
deriving DecidableEq, Repr

/-- The state held by a constructed `S3Cache` (the client handle is
external and carries no further observable state here). -/
structure S3CacheState : Type where
  access_key : String
  secret_key : String
  endpoint : String
  bucket : String
  region : Option String
  provider_name : Option String
  nsPfx : String
deriving DecidableEq, Repr

/-- Embedding of `S3Cache::new` (s3.rs lines 23..80). The source checks
the six configuration strings for emptiness and builds
`InitializationFailed` values inside that branch, but those values are
bare expression statements: none is returned, and control falls through
to the client construction, so the function returns `Ok(Some(..))` for
every configuration. The discarded error values are reproduced here as a
bound-and-dropped list. -/
def S3Cache.new (c : S3Config) : Except CacheError (Option S3CacheState) :=
  let _droppedChecks : List CacheError :=
    if c.access_key = "" || c.secret_key = "" || c.endpoint = "" ||
        c.bucket = "" || c.region = "" || c.nsPfx = "" then
      (if c.access_key = "" then [CacheError.InitializationFailed "S3_ACCESS_KEY is empty"] else [])
      ++ (if c.secret_key = "" then [CacheError.InitializationFailed "S3_SECRET_KEY is empty"] else [])
      ++ (if c.endpoint = "" then [CacheError.InitializationFailed "S3_ENDPOINT is empty"] else [])
      ++ (if c.bucket = "" then [CacheError.InitializationFailed "S3_BUCKET is empty"] else [])
      ++ (if c.region = "" then [CacheError.InitializationFailed "S3_REGION is empty"] else [])
      ++ (if c.nsPfx = "" then [CacheError.InitializationFailed "S3_PREFIX is empty"] else [])
      ++ [CacheError.InitializationFailed "S3 cache not initialized"]
    else []
  Except.ok (some
    { access_key := c.access_key
      secret_key := c.secret_key
      endpoint := c.endpoint
      bucket := c.bucket
      region := some c.region
      provider_name := some "Wasabi"
      nsPfx := c.nsPfx })

/-- Backend model whose every put fails with a transport error; the
bucket is empty and listings succeed. -/
def failingPutModel : S3Model :=
  { objects := []
    listFails := false
    putErr := fun _ => some "transport error" }

/-- Backend model with the five row keys a..e of table T stored under
namespace p, in ascending order; listings succeed and puts succeed. -/
def fiveKeyModel : S3Model :=
  { objects :=
      [ { key := "p/T/a".data, blob := [1] }
      , { key := "p/T/b".data, blob := [2] }
      , { key := "p/T/c".data, blob := [3] }
      , { key := "p/T/d".data, blob := [4] }
      , { key := "p/T/e".data, blob := [5] } ]
    listFails := false
    putErr := fun _ => none }

/-- Backend model holding exactly the encoded key of row b of table t
under namespace p. -/
def singleKeyModel : S3Model :=
  { objects := [ { key := "p/t/b".data, blob := [7] } ]
    listFails := false
    putErr := fun _ => none }

/-- Backend model holding row k1 of table t under namespace p; row k2 is
absent. -/
def multiGetModel : S3Model :=
  { objects := [ { key := "p/t/k1".data, blob := [9] } ]
    listFails := false
    putErr := fun _ => none }

/-! Helper lemmas about the trim-based key decoding. -/

theorem trimAux_of_not (fuel : Nat) (pat s : List Char)
    (h : (pat.isEmpty || !(pat.isPrefixOf s)) = true) :
    trimAux fuel pat s = s := by
  cases fuel with
  | zero => rfl
  | succ n => simp [trimAux, h]

theorem trimAux_step (fuel : Nat) (pat s : List Char)
    (h1 : pat.isEmpty = false) (h2 : pat.isPrefixOf s = true) :
    trimAux (fuel + 1) pat s = trimAux fuel pat (s.drop pat.length) := by
  simp [trimAux, h1, h2]

theorem encodeKey_assoc (nsPfx tableName rowKey : List Char) :
    encodeKey nsPfx tableName rowKey
      = (nsPfx ++ '/' :: tableName) ++ '/' :: rowKey := by
  simp [encodeKey]

theorem listPfx_isEmpty_false (nsPfx tableName : List Char) :
    (nsPfx ++ '/' :: tableName).isEmpty = false := by
  cases nsPfx <;> rfl

theorem decode_encode (nsPfx tableName rowKey : List Char)
    (h1 : (nsPfx ++ '/' :: tableName).isPrefixOf ('/' :: rowKey) = false)
    (h2 : (['/'] : List Char).isPrefixOf rowKey = false) :
    decodeKey (nsPfx ++ '/' :: tableName) (encodeKey nsPfx tableName rowKey)
      = rowKey := by
  have hassoc := encodeKey_assoc nsPfx tableName rowKey
  set p := nsPfx ++ '/' :: tableName with hp
  rw [hassoc]
  unfold decodeKey trimStartMatches
  have hlen : (p ++ '/' :: rowKey).length = (p.length + rowKey.length) + 1 := by
    simp [List.length_append]
    omega
  rw [hlen]
  have hpe : p.isEmpty = false := listPfx_isEmpty_false nsPfx tableName
  have hpre : p.isPrefixOf (p ++ '/' :: rowKey) = true := by
    rw [List.isPrefixOf_iff_prefix]
    exact List.prefix_append p ('/' :: rowKey)
  rw [trimAux_step _ _ _ hpe hpre, List.drop_left]
  rw [trimAux_of_not (p.length + rowKey.length) p ('/' :: rowKey) (by simp [hpe, h1])]
  have hpre2 : (['/'] : List Char).isPrefixOf ('/' :: rowKey) = true := by
    simp [List.isPrefixOf]
  have hlen2 : ('/' :: rowKey).length = rowKey.length + 1 := by simp
  rw [hlen2, trimAux_step rowKey.length ['/'] ('/' :: rowKey) rfl hpre2]
  simp only [List.length_cons, List.length_nil, List.drop_succ_cons, List.drop_zero]
  exact trimAux_of_not rowKey.length ['/'] rowKey (by simp [h2])

/-! Helper lemmas about the predecessor scan. -/

theorem prevScan_eq_spec (l : List Char) :
    prevScan l = (l.takeWhile (fun c => !(stopChar c))).map borrowChar ++
      (match l.dropWhile (fun c => !(stopChar c)) with
       | [] => []
       | c :: post => Char.ofNat (c.toNat - 1) :: post) := by
  induction l with
  | nil => rfl
  | cons c rest ih =>
    by_cases halpha : isAsciiAlphabetic c = true
    · by_cases hlt : 'a' < c
      · have hstop : stopChar c = true := by simp [stopChar, halpha, hlt]
        simp [prevScan, halpha, hlt, List.takeWhile_cons, List.dropWhile_cons, hstop]
      · have hstop : stopChar c = false := by simp [stopChar, hlt]
        simp [prevScan, halpha, hlt, List.takeWhile_cons, List.dropWhile_cons, hstop,
          borrowChar, ih]
    · have hstop : stopChar c = false := by simp [stopChar, halpha]
      simp [prevScan, halpha, List.takeWhile_cons, List.dropWhile_cons, hstop,
        borrowChar, ih]

theorem prev_eq_spec (input : List Char) :
    previous_alphanumeric input = previousAlphanumericSpec input := by
  unfold previous_alphanumeric previousAlphanumericSpec
  by_cases hz : input.all (fun c => c == '0') = true
  · simp [hz]
  · simp only [hz, if_false, Bool.not_eq_true] at *
    rw [prevScan_eq_spec]
    cases hdrop : input.reverse.dropWhile (fun c => !(stopChar c)) with
    | nil =>
      have htake : input.reverse.takeWhile (fun c => !(stopChar c)) = input.reverse := by
        have := List.takeWhile_append_dropWhile (p := fun c => !(stopChar c))
          (l := input.reverse)
        rw [hdrop, List.append_nil] at this
        exact this
      simp [hz, hdrop, htake]
    | cons c post =>
      simp [hz, hdrop]

theorem prevScan_over_allA (t : List Char) (c : Char)
    (hc1 : isAsciiLowercase c = true) (hc2 : 'a' < c) :
    ∀ bs : List Char, (∀ b ∈ bs, b = 'a') →
      prevScan (bs ++ c :: t)
        = bs.map (fun _ => 'z') ++ Char.ofNat (c.toNat - 1) :: t := by
  intro bs
  induction bs with
  | nil =>
    intro _
    have halpha : isAsciiAlphabetic c = true := by
      simp only [isAsciiAlphabetic, isAsciiLowercase] at *
      simp [hc1]
    simp [prevScan, halpha, hc2]
  | cons b bs ih =>
    intro hall
    have hb : b = 'a' := hall b (List.mem_cons_self b bs)
    subst hb
    have hrest : ∀ x ∈ bs, x = 'a' := fun x hx => hall x (List.mem_cons_of_mem _ hx)
    have e1 : isAsciiAlphabetic 'a' = true := by decide
    have e2 : ¬ ('a' < 'a') := by decide
    have e3 : isAsciiLowercase 'a' = true := by decide
    simp [List.cons_append, prevScan, e1, e2, e3, ih hrest]

/-! Helper lemmas about the listing loop and the multi-get loop. -/

theorem collectLoop_reaches_end (listPfx endKey : List Char) (limit : Nat) :
    ∀ (as : List (List Char)) (acc : List (List Char)) (bs : List (List Char)),
      endKey ∉ as → acc.length + as.length ≤ limit →
      collectLoop listPfx endKey limit acc (as ++ endKey :: bs)
        = acc ++ as.map (decodeKey listPfx) := by
  intro as
  induction as with
  | nil =>
    intro acc bs _ _
    simp [collectLoop]
  | cons a as ih =>
    intro acc bs hnm hlen
    have ha : ¬ (a = endKey) := fun h => hnm (h ▸ List.mem_cons_self a as)
    have hlt : ¬ (limit ≤ acc.length) := by
      simp only [List.length_cons] at hlen
      omega
    have hnm2 : endKey ∉ as := fun h => hnm (List.mem_cons_of_mem _ h)
    have hlen2 : (acc ++ [decodeKey listPfx a]).length + as.length ≤ limit := by
      simp only [List.length_append, List.length_cons, List.length_nil] at *
      omega
    have step : collectLoop listPfx endKey limit acc ((a :: as) ++ endKey :: bs)
        = collectLoop listPfx endKey limit (acc ++ [decodeKey listPfx a])
            (as ++ endKey :: bs) := by
      simp [collectLoop, ha, hlt]
    rw [step, ih (acc ++ [decodeKey listPfx a]) bs hnm2 hlen2]
    simp [List.append_assoc]

theorem collectLoop_mem (listPfx endKey : List Char) (limit : Nat) :
    ∀ (ks : List (List Char)) (acc : List (List Char)) (x : List Char),
      x ∈ collectLoop listPfx endKey limit acc ks →
      x ∈ acc ∨ ∃ k ∈ ks, x = decodeKey listPfx k := by
  intro ks
  induction ks with
  | nil =>
    intro acc x hx
    exact Or.inl hx
  | cons k rest ih =>
    intro acc x hx
    simp only [collectLoop] at hx
    by_cases hk : k = endKey
    · rw [if_pos hk] at hx
      exact Or.inl hx
    · rw [if_neg hk] at hx
      by_cases hl : limit ≤ acc.length
      · rw [if_pos hl] at hx
        exact Or.inl hx
      · rw [if_neg hl] at hx
        rcases ih _ x hx with hacc | ⟨k', hk', hdec⟩
        · rcases List.mem_append.mp hacc with h | h
          · exact Or.inl h
          · refine Or.inr ⟨k, List.mem_cons_self k rest, ?_⟩
            simpa using h
        · exact Or.inr ⟨k', List.mem_cons_of_mem _ hk', hdec⟩

theorem getMultiLoop_err (m : S3Model) (nsPfx tableName : List Char) :
    ∀ (rowKeys : List (List Char)) (acc : List (List Char × RowData)),
      (∃ rk ∈ rowKeys, ∃ e, get_single_row_data m nsPfx tableName rk = Except.error e) →
      ∃ msg, getMultiLoop m nsPfx tableName rowKeys acc
        = Except.error (CacheError.CacheReadFailed msg) := by
  intro rowKeys
  induction rowKeys with
  | nil =>
    intro acc h
    rcases h with ⟨rk, hmem, _⟩
    exact absurd hmem (List.not_mem_nil rk)
  | cons rk rest ih =>
    intro acc h
    cases hres : get_single_row_data m nsPfx tableName rk with
    | error e =>
      refine ⟨"get_multi_row_data failed with " ++ CacheError.display e, ?_⟩
      simp [getMultiLoop, hres]
    | ok rd =>
      rcases h with ⟨rk', hmem, e, he⟩
      rcases List.mem_cons.mp hmem with heq | hmem'
      · subst heq
        rw [hres] at he
        cases he
      · have : ∃ msg, getMultiLoop m nsPfx tableName rest (acc ++ [(rk, rd)])
            = Except.error (CacheError.CacheReadFailed msg) :=
          ih _ ⟨rk', hmem', e, he⟩
        rcases this with ⟨msg, hmsg⟩
        refine ⟨msg, ?_⟩
        simp [getMultiLoop, hres, hmsg]

/-! Claim theorems. -/

/-- C1: the claim says that `S3Cache::new` returns an `InitializationFailed`
error whenever any of the six configuration strings is empty. The code
instead constructs the error values as bare expression statements and
never returns them, so even the fully empty configuration yields
`Ok(Some(cache))`: this theorem evaluates the embedding at that failing
input. -/
theorem S3Cache_new_accepts_empty_config :
    S3Cache.new
        { access_key := "", secret_key := "", endpoint := "", bucket := ""
          region := "", nsPfx := "" }
      = Except.ok (some
        { access_key := "", secret_key := "", endpoint := "", bucket := ""
          region := some "", provider_name := some "Wasabi", nsPfx := "" }) := by
  rfl

/-- C2: the claim says that a transport error on the put of the first
entry makes `put_row_data` return a `CacheWriteFailed`. The code maps the
error into a `CacheWriteFailed` but binds the whole result to a discarded
value and then returns `Ok`: against a backend whose put fails, the call
still reports success. This theorem evaluates the embedding at that
failing input. -/
theorem put_row_data_transport_error_reports_success :
    failingPutModel.putErr (encodeKey "p".data "t".data "k".data)
        = some "transport error"
    ∧ (put_row_data failingPutModel "p".data "t".data "fam"
        [("k".data, [("c", [1, 2])])]).1 = Except.ok () := by
  exact ⟨rfl, rfl⟩

/-- C5 counterexample: the claim says that for every non-empty key of
lowercase letters the output differs from the input at exactly one
position. For the key "baa" the function rewrites both trailing 'a'
characters to 'z' while borrowing, and then decrements 'b', so the output
"azz" differs at all three positions. -/
theorem previous_alphanumeric_baa_differs_at_three_positions :
    previous_alphanumeric "baa".data = "azz".data
    ∧ countDiffs "baa".data (previous_alphanumeric "baa".data) ≠ 1 := by
  decide

/-- C5 amended: for a non-empty key of lowercase letters that contains at
least one character strictly greater than 'a', the output decrements the
rightmost such character by one code point and rewrites every character
to its right (each necessarily 'a') to 'z'; the characters to its left
are unchanged. It therefore differs at exactly one position only when the
last character itself is greater than 'a', as in
Predecessor("abc") = "abb". -/
theorem previous_alphanumeric_lowercase_shape :
    (∀ (as : List Char) (c : Char) (bs : List Char),
      (∀ x ∈ as, isAsciiLowercase x = true) →
      isAsciiLowercase c = true → 'a' < c →
      (∀ b ∈ bs, b = 'a') →
      previous_alphanumeric (as ++ c :: bs)
        = as ++ Char.ofNat (c.toNat - 1) :: bs.map (fun _ => 'z'))
    ∧ previous_alphanumeric "abc".data = "abb".data := by
  constructor
  · intro as c bs _ hc1 hc2 hbs
    have hcz : ¬ ((as ++ c :: bs).all (fun x => x == '0') = true) := by
      intro hall
      have hmem : c ∈ as ++ c :: bs :=
        List.mem_append_right as (List.mem_cons_self c bs)
      have : (c == '0') = true := List.all_eq_true.mp hall c hmem
      have hc0 : c = '0' := by simpa using this
      subst hc0
      exact absurd hc2 (by decide)
    unfold previous_alphanumeric
    rw [if_neg hcz]
    have hrev : (as ++ c :: bs).reverse = bs.reverse ++ c :: as.reverse := by
      simp [List.reverse_append]
    rw [hrev,
      prevScan_over_allA as.reverse c hc1 hc2 bs.reverse
        (fun b hb => hbs b (List.mem_reverse.mp hb))]
    simp [List.reverse_append, List.map_reverse]
  · decide

/-- C6: for every input, `previous_alphanumeric` agrees with the function
written from the words of the spec: all-zero inputs yield the empty
string, and otherwise the scan from the last character leftward leaves
non-alphabetic characters unchanged, decrements the first alphabetic
character strictly greater than 'a' and stops there, rewrites 'a' to 'z'
and uppercase letters to '9' without stopping, and returns the string as
transformed if the scan exhausts; in particular
Predecessor("000") is empty and Predecessor("aaa") = "zzz". -/
theorem previous_alphanumeric_matches_spec :
    (∀ input : List Char,
      previous_alphanumeric input = previousAlphanumericSpec input)
    ∧ previous_alphanumeric "000".data = []
    ∧ previous_alphanumeric "aaa".data = "zzz".data :=
  ⟨prev_eq_spec, by decide, by decide⟩

/-- C7: with a batch of two or more entries whose first put succeeds,
`put_row_data` issues exactly one backend put, for the first entry, whose
body is the concatenation of that entry's column values under the first
entry's storage key, and reports success, ignoring every later entry. -/
theorem put_row_data_writes_only_first (m : S3Model) (nsPfx tableName : List Char)
    (familyName : String) (k1 : List Char) (d1 : RowData)
    (e2 : List Char × RowData) (rest : List (List Char × RowData))
    (_hok : m.putErr (encodeKey nsPfx tableName k1) = none) :
    put_row_data m nsPfx tableName familyName ((k1, d1) :: e2 :: rest)
      = (Except.ok (),
         [{ key := encodeKey nsPfx tableName k1,
            body := (d1.map Prod.snd).flatten,
            family := familyName }]) := by
  rfl

/-- C7 witness. -/
theorem put_row_data_writes_only_first_witness :
    put_row_data fiveKeyModel "p".data "t".data "fam"
        [("k1".data, [("c1", [1]), ("c2", [2, 3])]), ("k2".data, [])]
      = (Except.ok (),
         [{ key := encodeKey "p".data "t".data "k1".data,
            body := ([(("c1" : String), ([1] : List Nat)),
                      (("c2" : String), ([2, 3] : List Nat))].map Prod.snd).flatten,
            family := "fam" }]) :=
  put_row_data_writes_only_first fiveKeyModel "p".data "t".data "fam" "k1".data
    [("c1", [1]), ("c2", [2, 3])] ("k2".data, []) [] rfl

/-- C9: encoding a storage key from the namespace, table and row key and
then decoding it against the listing prefix of the same namespace and
table recovers the row key exactly, provided the row key does not start
with the delimiter and the listing prefix is not a prefix of the
delimiter-plus-row-key remainder (the claim's proviso that the row key
does not contain the delimiter sequence unexpectedly). -/
theorem encode_then_decode_roundtrip (nsPfx tableName rowKey : List Char)
    (h1 : (nsPfx ++ '/' :: tableName).isPrefixOf ('/' :: rowKey) = false)
    (h2 : (['/'] : List Char).isPrefixOf rowKey = false) :
    decodeKey (nsPfx ++ '/' :: tableName) (encodeKey nsPfx tableName rowKey)
      = rowKey :=
  decode_encode nsPfx tableName rowKey h1 h2

/-- C9 witness. -/
theorem encode_then_decode_roundtrip_witness :
    decodeKey ("p".data ++ '/' :: "tbl".data)
        (encodeKey "p".data "tbl".data "key1".data) = "key1".data :=
  encode_then_decode_roundtrip "p".data "tbl".data "key1".data
    (by decide) (by decide)

/-- C10: `put_row_data` with an empty input batch never reaches the loop
body, falls through to the final statement, and returns a
`CacheWriteFailed` error while issuing no backend put. -/
theorem put_row_data_empty_batch_fails (m : S3Model) (nsPfx tableName : List Char)
    (familyName : String) :
    put_row_data m nsPfx tableName familyName []
      = (Except.error (CacheError.CacheWriteFailed "Could not write row to cache"),
         []) :=
  rfl

/-- C3 counterexample: the claim says the end bound is applied to the
decoded row key, so listing table T with start b, end d, limit 10 over
stored keys a..e would return [b, c]. The code compares the raw storage
key (still carrying the namespace and table prefix) against `end_at`, so
a plain row-key end bound never matches and the listing returns
[b, c, d, e]. -/
theorem get_keys_example_counterexample :
    get_keys fiveKeyModel "p".data "T".data (some "b".data) (some "d".data) 10
        = Except.ok ["b".data, "c".data, "d".data, "e".data]
    ∧ get_keys fiveKeyModel "p".data "T".data (some "b".data) (some "d".data) 10
        ≠ Except.ok ["b".data, "c".data] := by
  decide

/-- C3 amended: iteration stops, excluding it, at the first listed entry
whose raw storage key (not its decoded row key) equals `end_at`; since
listed storage keys carry the namespace/table prefix, a plain row-key
end bound never matches, and the example listing of table T with
start b, end d, limit 10 over stored keys a..e returns [b, c, d, e]. -/
theorem get_keys_end_bound_on_raw_key :
    (∀ (listPfx endKey : List Char) (limit : Nat) (as bs : List (List Char)),
      endKey ∉ as → as.length ≤ limit →
      collectLoop listPfx endKey limit [] (as ++ endKey :: bs)
        = as.map (decodeKey listPfx))
    ∧ get_keys fiveKeyModel "p".data "T".data (some "b".data) (some "d".data) 10
        = Except.ok ["b".data, "c".data, "d".data, "e".data] := by
  constructor
  · intro listPfx endKey limit as bs h1 h2
    have h3 : ([] : List (List Char)).length + as.length ≤ limit := by
      simpa using h2
    have := collectLoop_reaches_end listPfx endKey limit as [] bs h1 h3
    simpa using this
  · decide

/-- C3 amended witness. -/
theorem get_keys_end_bound_on_raw_key_witness :
    collectLoop "p/T".data "d".data 10 []
        (["p/T/b".data, "p/T/c".data] ++ "d".data :: ["p/T/e".data])
      = ["p/T/b".data, "p/T/c".data].map (decodeKey "p/T".data) :=
  get_keys_end_bound_on_raw_key.1 "p/T".data "d".data 10
    ["p/T/b".data, "p/T/c".data] ["p/T/e".data] (by decide) (by decide)

/-- C8: if the point lookup of any requested key fails, the whole
`get_multi_row_data` batch returns a `CacheReadFailed`; the error result
carries no row data, so none of the rows fetched before the failure are
returned. -/
theorem get_multi_row_data_aborts_on_failure (m : S3Model)
    (nsPfx tableName : List Char) (rowKeys : List (List Char))
    (h : ∃ rk ∈ rowKeys, ∃ e,
        get_single_row_data m nsPfx tableName rk = Except.error e) :
    ∃ msg, get_multi_row_data m nsPfx tableName rowKeys
      = Except.error (CacheError.CacheReadFailed msg) :=
  getMultiLoop_err m nsPfx tableName rowKeys [] h

/-- C8 witness: over keys k1 (present) and k2 (absent) the batch returns
a read failure. -/
theorem get_multi_row_data_aborts_on_failure_witness :
    ∃ msg, get_multi_row_data multiGetModel "p".data "t".data
        ["k1".data, "k2".data]
      = Except.error (CacheError.CacheReadFailed msg) :=
  get_multi_row_data_aborts_on_failure multiGetModel "p".data "t".data
    ["k1".data, "k2".data]
    ⟨"k2".data, by decide,
     CacheError.CacheReadFailed ("Object not found " ++ String.mk "p/t/k2".data),
     by decide⟩

/-- C4 counterexample: the claim says `row_key_exists` returns true if
and only if a `get_keys` call with `start_at` equal to the row key and
limit 1 yields that key as its first result. With the single stored key
of row b, that listing does yield b first, yet `row_key_exists` returns
false, because the code passes the full storage key (already carrying the
namespace and table) as `start_at`, which the predecessor trick then
prefixes a second time. -/
theorem row_key_exists_counterexample :
    row_key_exists singleKeyModel "p".data "t".data "b".data = Except.ok false
    ∧ get_keys singleKeyModel "p".data "t".data (some "b".data) none 1
        = Except.ok ["b".data] := by
  decide

/-- C4 amended: `row_key_exists(table, k)` returns `Ok(true)` exactly
when the one-key listing anchored at the predecessor of the full storage
key `nsPfx/table/k` (the argument the code actually passes as `start_at`)
yields `k` as its first decoded result; and when the backend listing
succeeds and storage holds only keys properly encoded from this
namespace and table with row keys free of leading delimiters, a key not
present in storage yields `Ok(false)`, not a failure. -/
theorem row_key_exists_amended (m : S3Model) (nsPfx tableName : List Char)
    (rs : List (List Char)) (k : List Char) :
    (row_key_exists m nsPfx tableName k = Except.ok true ↔
      ∃ l, get_keys m nsPfx tableName (some (encodeKey nsPfx tableName k)) none 1
            = Except.ok l ∧ l.head? = some k)
    ∧ (m.listFails = false →
       m.objects.map S3Object.key = rs.map (encodeKey nsPfx tableName) →
       (∀ r ∈ rs, (nsPfx ++ '/' :: tableName).isPrefixOf ('/' :: r) = false
          ∧ (['/'] : List Char).isPrefixOf r = false) →
       k ∉ rs →
       row_key_exists m nsPfx tableName k = Except.ok false) := by
  have hrw : row_key_exists m nsPfx tableName k =
      match get_keys m nsPfx tableName (some (encodeKey nsPfx tableName k)) none 1 with
      | Except.error e => Except.error e
      | Except.ok sk =>
          Except.ok (match sk with
            | [] => false
            | k0 :: _ => decide (k0 = k)) := rfl
  constructor
  · rw [hrw]
    cases hres : get_keys m nsPfx tableName (some (encodeKey nsPfx tableName k)) none 1 with
    | error e => simp
    | ok sk =>
      cases sk with
      | nil => simp
      | cons k0 tl => simp
  · intro hf hkeys hb hk
    have hgk : get_keys m nsPfx tableName (some (encodeKey nsPfx tableName k)) none 1
        = Except.ok (collectLoop (nsPfx ++ '/' :: tableName) [] 1 []
            (listObjectsV2 m (nsPfx ++ '/' :: tableName)
              ((nsPfx ++ '/' :: tableName)
                ++ '/' :: previous_alphanumeric (encodeKey nsPfx tableName k)) 1)) := by
      simp [get_keys, hf]
    rw [hrw, hgk]
    cases hcl : collectLoop (nsPfx ++ '/' :: tableName) [] 1 []
        (listObjectsV2 m (nsPfx ++ '/' :: tableName)
          ((nsPfx ++ '/' :: tableName)
            ++ '/' :: previous_alphanumeric (encodeKey nsPfx tableName k)) 1) with
    | nil => simp
    | cons k0 tl =>
      have hmem : k0 ∈ collectLoop (nsPfx ++ '/' :: tableName) [] 1 []
          (listObjectsV2 m (nsPfx ++ '/' :: tableName)
            ((nsPfx ++ '/' :: tableName)
              ++ '/' :: previous_alphanumeric (encodeKey nsPfx tableName k)) 1) := by
        rw [hcl]
        exact List.mem_cons_self k0 tl
      rcases collectLoop_mem _ _ _ _ _ _ hmem with hacc | ⟨kk, hkk, hdec⟩
      · exact absurd hacc (List.not_mem_nil k0)
      · have hkk2 : kk ∈ m.objects.map S3Object.key := by
          have h1 : kk ∈ ((m.objects.map S3Object.key).filter
              (fun x => (nsPfx ++ '/' :: tableName).isPrefixOf x
                && keyLt ((nsPfx ++ '/' :: tableName)
                  ++ '/' :: previous_alphanumeric (encodeKey nsPfx tableName k)) x)) :=
            List.take_subset _ _ hkk
          exact List.mem_of_mem_filter h1
        rw [hkeys] at hkk2
        rcases List.mem_map.mp hkk2 with ⟨r, hr, henc⟩
        have hk0r : k0 = r := by
          rw [hdec, ← henc]
          exact decode_encode nsPfx tableName r (hb r hr).1 (hb r hr).2
        have hne : ¬ (k0 = k) := by
          intro he
          exact hk (he ▸ hk0r ▸ hr)
        simp [hne]

/-- C4 amended witness. -/
theorem row_key_exists_amended_witness :
    (row_key_exists singleKeyModel "p".data "t".data "x".data = Except.ok true ↔
      ∃ l, get_keys singleKeyModel "p".data "t".data
            (some (encodeKey "p".data "t".data "x".data)) none 1
          = Except.ok l ∧ l.head? = some "x".data)
    ∧ row_key_exists singleKeyModel "p".data "t".data "x".data
        = Except.ok false :=
  ⟨(row_key_exists_amended singleKeyModel "p".data "t".data
      ["b".data] "x".data).1,
   (row_key_exists_amended singleKeyModel "p".data "t".data
      ["b".data] "x".data).2 rfl (by decide) (by decide) (by decide)⟩

/-- C5 amended witness. -/
theorem previous_alphanumeric_lowercase_shape_witness :
    previous_alphanumeric (['a'] ++ 'b' :: ['a'])
      = ['a'] ++ Char.ofNat ('b'.toNat - 1) :: (['a'].map (fun _ => 'z')) :=
  previous_alphanumeric_lowercase_shape.1 ['a'] 'b' ['a']
    (by decide) (by decide) (by decide) (by decide)
